import Mathlib

/-!
Shallow embedding of the receipt-to-transaction matching engine
(`matching.py`: `normalize_haendler`, `parse_datum`, `calculate_match_score`,
`find_matches`; `app.py`: the pure assignment loop of `auto_match_belege`).

Numeric values (Python floats) are modelled as rationals `ℚ`; Python
`datetime` values are modelled as calendar dates together with a
day-number function (`daysFromCivil`, the standard civil-calendar day
count), so that `(t - b).days` becomes a difference of day numbers.
`difflib.SequenceMatcher(None, a, b).ratio()` is Python standard-library
code, not part of this repository; it is modelled as an abstract
similarity parameter `sim : String → String → ℚ` threaded through the
scorer, exactly where the source calls `.ratio()`.
-/

namespace Kreditkarten

set_option maxRecDepth 100000

/-- A parsed calendar date (a Python `datetime` at midnight). -/
structure Datum where
  year : ℕ
  month : ℕ
  day : ℕ
deriving DecidableEq

/-- The `datum` field of a record: Python `None`, a string, or an
already-parsed `datetime` instance (line 41 of `matching.py` passes a
`datetime` through unchanged). -/
inductive DatumVal where
  | null : DatumVal
  | str (s : String) : DatumVal
  | dt (d : Datum) : DatumVal
deriving DecidableEq

/-- A transaction record as consumed by the scorer (`transaktion` dict). -/
structure Transaktion where
  id : ℕ
  waehrung : Option String
  betrag_eur : Option ℚ
  betrag : Option ℚ
  datum : DatumVal
  haendler : Option String
  beschreibung : Option String
deriving DecidableEq

/-- A receipt record as consumed by the scorer (`beleg` dict). -/
structure Beleg where
  id : ℕ
  waehrung : Option String
  betrag : Option ℚ
  datum : DatumVal
  haendler : Option String
  ocr_text : Option String
deriving DecidableEq

/-! ### Python string primitives used by the source -/

/-- Python `x or dflt` on an optional string (`None` and `""` are falsy). -/
def pyOrStr (a : Option String) (dflt : String) : String :=
  match a with
  | some s => if s = "" then dflt else s
  | none => dflt

/-- Python `str.upper()` (ASCII; currency codes in the data are ASCII). -/
def pyUpper (s : String) : String := ⟨s.data.map Char.toUpper⟩

/-- Python `str.lower()` (ASCII). -/
def pyLower (s : String) : String := ⟨s.data.map Char.toLower⟩

/-- Whitespace test used for `str.strip()` / `str.split()`. -/
def isWS (c : Char) : Bool := c.isWhitespace

/-- Python `str.strip()` on a character list. -/
def stripL (cs : List Char) : List Char :=
  ((cs.dropWhile isWS).reverse.dropWhile isWS).reverse

/-- Python `str.strip()`. -/
def pyStrip (s : String) : String := ⟨stripL s.data⟩

/-- Helper for `pyWords`: accumulates the current word (reversed). -/
def pyWordsAux : List Char → List Char → List (List Char)
  | [], acc => if acc.isEmpty then [] else [acc.reverse]
  | c :: cs, acc =>
    if isWS c then
      if acc.isEmpty then pyWordsAux cs [] else acc.reverse :: pyWordsAux cs []
    else pyWordsAux cs (c :: acc)

/-- Python `str.split()` with no argument: split on whitespace runs,
dropping empty pieces. -/
def pyWords (s : String) : List String :=
  (pyWordsAux s.data []).map (fun cs => ⟨cs⟩)

/-- Python `min` on two rationals (kept as an explicit conditional so
that concrete evaluations reduce in the kernel). -/
def pyMin (a b : ℚ) : ℚ := if a ≤ b then a else b

/-- Python `max` on two rationals. -/
def pyMax (a b : ℚ) : ℚ := if a ≤ b then b else a

/-- Is `n` a prefix of `h` (character lists, used for substring search)? -/
def isPrefixL : List Char → List Char → Bool
  | [], _ => true
  | _ :: _, [] => false
  | a :: as_, b :: bs => a = b && isPrefixL as_ bs

/-- Python `needle in hay` substring containment on character lists. -/
def isInfixL (n : List Char) : List Char → Bool
  | [] => n.isEmpty
  | c :: cs => isPrefixL n (c :: cs) || isInfixL n cs

/-- Python `needle in hay` on strings. -/
def pyContains (hay needle : String) : Bool := isInfixL needle.data hay.data

/-! ### `parse_datum` (matching.py lines 36-57)

CPython `strptime` format directives used by the source: `%Y` matches
exactly four digits, `%y` exactly two (mapped `00-68 → 2000s`,
`69-99 → 1900s`), `%m` and `%d` one or two digits; `datetime`
construction validates the day against the month (leap years included)
and raises for out-of-range values, which `parse_datum` catches,
falling through to the next format. -/

def isLeapYear (y : ℕ) : Bool := y % 4 = 0 && (y % 100 ≠ 0 || y % 400 = 0)

def daysInMonth (y m : ℕ) : ℕ :=
  if m = 2 then (if isLeapYear y then 29 else 28)
  else if m = 4 ∨ m = 6 ∨ m = 9 ∨ m = 11 then 30
  else 31

/-- Digit-string test (nonempty, all decimal digits). -/
def isDigits (s : String) : Bool := !s.data.isEmpty && s.data.all Char.isDigit

/-- Decimal value of a digit string. -/
def natOfStr (s : String) : ℕ :=
  s.data.foldl (fun n c => n * 10 + (c.toNat - 48)) 0

/-- Range-validate and build a date, as `datetime(year, month, day)` does. -/
def mkDatum (y m d : ℕ) : Option Datum :=
  if 1 ≤ y ∧ y ≤ 9999 ∧ 1 ≤ m ∧ m ≤ 12 ∧ 1 ≤ d ∧ d ≤ daysInMonth y m then
    some ⟨y, m, d⟩
  else none

/-- Split on a separator character, keeping empty pieces (Python
`re`-style literal separators in a `strptime` format). -/
def splitSepAux (sep : Char) : List Char → List Char → List String
  | [], acc => [⟨acc.reverse⟩]
  | c :: cs, acc =>
    if c = sep then (⟨acc.reverse⟩ : String) :: splitSepAux sep cs []
    else splitSepAux sep cs (c :: acc)

def splitSep (sep : Char) (s : String) : List String := splitSepAux sep s.data []

/-- Format `'%Y-%m-%d'`: four-digit year, one-or-two-digit month/day. -/
def parseYMD (s : String) : Option Datum :=
  match splitSep '-' s with
  | [ys, ms, ds] =>
    if isDigits ys && ys.length = 4 && isDigits ms && ms.length ≤ 2
        && isDigits ds && ds.length ≤ 2 then
      mkDatum (natOfStr ys) (natOfStr ms) (natOfStr ds)
    else none
  | _ => none

/-- Format `'%d.%m.%Y'`. -/
def parseDMY (s : String) : Option Datum :=
  match splitSep '.' s with
  | [ds, ms, ys] =>
    if isDigits ys && ys.length = 4 && isDigits ms && ms.length ≤ 2
        && isDigits ds && ds.length ≤ 2 then
      mkDatum (natOfStr ys) (natOfStr ms) (natOfStr ds)
    else none
  | _ => none

/-- Format `'%d.%m.%y'`: two-digit year, `00-68 → 2000s`, `69-99 → 1900s`. -/
def parseDMy2 (s : String) : Option Datum :=
  match splitSep '.' s with
  | [ds, ms, ys] =>
    if isDigits ys && ys.length = 2 && isDigits ms && ms.length ≤ 2
        && isDigits ds && ds.length ≤ 2 then
      let yy := natOfStr ys
      mkDatum (if yy ≤ 68 then 2000 + yy else 1900 + yy) (natOfStr ms) (natOfStr ds)
    else none
  | _ => none

/-- Format `'%d/%m/%Y'`. -/
def parseDMYSlash (s : String) : Option Datum :=
  match splitSep '/' s with
  | [ds, ms, ys] =>
    if isDigits ys && ys.length = 4 && isDigits ms && ms.length ≤ 2
        && isDigits ds && ds.length ≤ 2 then
      mkDatum (natOfStr ys) (natOfStr ms) (natOfStr ds)
    else none
  | _ => none

/-- `parse_datum` (matching.py lines 36-57): falsy input gives `None`, a
`datetime` instance passes through, a string is stripped and tried
against the four formats in order. -/
def parse_datum : DatumVal → Option Datum
  | .null => none
  | .dt d => some d
  | .str s =>
    if s = "" then none
    else
      let t := pyStrip s
      match parseYMD t with
      | some d => some d
      | none =>
        match parseDMY t with
        | some d => some d
        | none =>
          match parseDMy2 t with
          | some d => some d
          | none => parseDMYSlash t

/-- Day number of a civil calendar date (standard `days_from_civil`
algorithm); models the day component of Python `datetime` subtraction:
`(t - b).days = daysFromCivil t - daysFromCivil b` for midnight datetimes. -/
def daysFromCivil (dt : Datum) : ℤ :=
  let y := if dt.month ≤ 2 then dt.year - 1 else dt.year
  let era := y / 400
  let yoe := y % 400
  let mp := if dt.month ≤ 2 then dt.month + 9 else dt.month - 3
  let doy := (153 * mp + 2) / 5 + dt.day - 1
  let doe := yoe * 365 + yoe / 4 - yoe / 100 + doy
  (era * 146097 + doe : ℤ) - 719468

/-! ### `normalize_haendler` (matching.py lines 10-33)

The source removes each suffix with `re.sub(rf'\b{suffix}\b\.?', '', name)`.
A `.` inside a suffix string (as in `'e.k.'`, `'co.'`) is the regex
any-character metacharacter (anything but a newline); `\b` is a
word/non-word boundary with `\w = [alphanumeric or underscore]`
(Unicode classes are modelled at ASCII precision, which covers the
suffix alphabet). Matches are scanned left to right, non-overlapping,
and replaced by the empty string. -/

def isWordChar (c : Char) : Bool := c.isAlphanum || c = '_' || 127 < c.toNat

/-- Wordness of an optional character (`none` = string edge = non-word). -/
def optW : Option Char → Bool
  | some c => isWordChar c
  | none => false

/-- Consume the suffix pattern against the input; `'.'` in the pattern
matches any character except a newline. Returns the last consumed
character and the remaining input. -/
def consumePat : Option Char → List Char → List Char → Option (Option Char × List Char)
  | lastc, [], rest => some (lastc, rest)
  | _, _ :: _, [] => none
  | _, p :: ps, c :: cs =>
    if (p = '.' ∧ c ≠ '\n') ∨ p = c then consumePat (some c) ps cs else none

/-- Try to match `\b<pat>\b\.?` at the current position (`prev` is the
character just before it). Returns the last consumed character and the
rest of the input on success. -/
def matchSuffixAt (pat : List Char) (prev : Option Char) (input : List Char) :
    Option (Option Char × List Char) :=
  if optW prev = optW input.head? then none
  else
    match consumePat none pat input with
    | some (lastc, rest) =>
      if optW lastc = optW rest.head? then none
      else
        match rest with
        | '.' :: rest2 => some (some '.', rest2)
        | _ => some (lastc, rest)
    | none => none

/-- Left-to-right non-overlapping scan-and-delete of the suffix pattern
(`re.sub(..., '', name)`); fuel is the input length plus one, which is
never exhausted since every step consumes at least one character. -/
def scanSubAux (pat : List Char) : ℕ → Option Char → List Char → List Char
  | 0, _, input => input
  | _ + 1, _, [] => []
  | fuel + 1, prev, c :: cs =>
    match matchSuffixAt pat prev (c :: cs) with
    | some (lastc, rest) => scanSubAux pat fuel lastc rest
    | none => c :: scanSubAux pat fuel (some c) cs

def applySuffixSub (suffix : String) (cs : List Char) : List Char :=
  scanSubAux suffix.data (cs.length + 1) none cs

/-- The suffix list of matching.py lines 18-22. -/
def suffixes : List String :=
  ["gmbh", "ag", "kg", "ohg", "e.k.", "ug", "mbh", "co.",
   "inc", "ltd", "llc", "corp", "sa", "srl",
   "restaurant", "hotel", "gasthof", "cafe", "café"]

def joinSpace : List String → String
  | [] => ""
  | w :: ws => ws.foldl (fun a b => a ++ " " ++ b) w

/-- `normalize_haendler` (matching.py lines 10-33): falsy name gives
`""`; otherwise lower-case, strip, delete legal-entity/venue suffixes,
replace non-word non-whitespace characters by spaces, and collapse
whitespace runs. -/
def normalize_haendler (nameOpt : Option String) : String :=
  let name := nameOpt.getD ""
  if name = "" then ""
  else
    let name := pyStrip (pyLower name)
    let cs := suffixes.foldl (fun s suf => applySuffixSub suf s) name.data
    let cs := cs.map (fun c => if isWordChar c || isWS c then c else ' ')
    pyStrip (joinSpace ((pyWordsAux cs []).map (fun w => (⟨w⟩ : String))))

/-! ### `calculate_match_score` (matching.py lines 60-229)

The sequential `score += ...` accumulation of the source is rendered as
a sum of per-signal components; each component definition mirrors the
corresponding source block, including its guard. -/

/-- Explanation record (the `details` dict). -/
structure MatchDetails where
  betrag_match : Bool
  betrag_diff : Option ℚ
  datum_diff : Option ℕ
  haendler_similarity : ℚ
  ocr_match : Bool
  waehrung_mismatch : Bool
deriving DecidableEq

/-- `(transaktion.get('waehrung') or 'EUR').upper()` (line 88). -/
def t_waehrungOf (t : Transaktion) : String := pyUpper (pyOrStr t.waehrung "EUR")

/-- `(beleg.get('waehrung') or 'EUR').upper()` (line 89). -/
def b_waehrungOf (b : Beleg) : String := pyUpper (pyOrStr b.waehrung "EUR")

/-- `is_foreign_currency_match` (line 93). -/
def isForeignMatch (t : Transaktion) (b : Beleg) : Prop :=
  t_waehrungOf t ≠ "EUR" ∧ t_waehrungOf t = b_waehrungOf b

instance (t : Transaktion) (b : Beleg) : Decidable (isForeignMatch t b) := by
  unfold isForeignMatch; infer_instance

/-- `is_currency_mismatch` (line 96). -/
def isMismatch (t : Transaktion) (b : Beleg) : Prop :=
  t_waehrungOf t ≠ b_waehrungOf b

instance (t : Transaktion) (b : Beleg) : Decidable (isMismatch t b) := by
  unfold isMismatch; infer_instance

/-- The early-rejection condition of line 98: distinct currencies,
neither of which is EUR. -/
def isRejected (t : Transaktion) (b : Beleg) : Prop :=
  isMismatch t b ∧ t_waehrungOf t ≠ "EUR" ∧ b_waehrungOf b ≠ "EUR"

instance (t : Transaktion) (b : Beleg) : Decidable (isRejected t b) := by
  unfold isRejected; infer_instance

/-- `betrag_weight` selected by the regime dispatch of lines 108-121. -/
def betragWeightOf (t : Transaktion) (b : Beleg) : ℚ :=
  if isForeignMatch t b then 0.2 else if isMismatch t b then 0 else 0.5

/-- `haendler_weight` selected by the regime dispatch of lines 108-121. -/
def haendlerWeightOf (t : Transaktion) (b : Beleg) : ℚ :=
  if isForeignMatch t b then 0.5 else if isMismatch t b then 0.5 else 0.2

/-- The fixed date weight: the maximal date award of line 147 (the date
signal is hard-coded at a 0.3 scale in every regime). -/
def datumWeight : ℚ := 0.3

/-- `transaktion.get('betrag_eur') or transaktion.get('betrag', 0)`
(line 104); Python truthiness makes `None` and `0` fall through. -/
def t_betragOf (t : Transaktion) : ℚ :=
  match t.betrag_eur with
  | some x => if x = 0 then (t.betrag.getD 0) else x
  | none => t.betrag.getD 0

/-- `beleg.get('betrag', 0)` (line 105), with `None` collapsing to `0`
(both are falsy wherever this value is used). -/
def b_betragOf (b : Beleg) : ℚ := b.betrag.getD 0

/-- The guard of line 123: both amounts truthy and positive weight. -/
def betragCond (t : Transaktion) (b : Beleg) : Prop :=
  t_betragOf t ≠ 0 ∧ b_betragOf b ≠ 0 ∧ 0 < betragWeightOf t b

instance (t : Transaktion) (b : Beleg) : Decidable (betragCond t b) := by
  unfold betragCond; infer_instance

/-- The piecewise fraction of the amount weight (lines 127-136). -/
def betragFrac (d : ℚ) : ℚ :=
  if d < 0.01 then 1
  else if d < 0.1 then 0.9
  else if d < 1 then 0.6
  else if d < 5 then 0.2
  else 0

/-- Amount component of the score (lines 123-136). -/
def betragScoreOf (t : Transaktion) (b : Beleg) : ℚ :=
  if betragCond t b then
    betragWeightOf t b * betragFrac |t_betragOf t - b_betragOf b|
  else 0

/-- `tage_diff` (line 143) when both dates parse. -/
def tageDiffOf (t : Transaktion) (b : Beleg) : Option ℕ :=
  match parse_datum t.datum, parse_datum b.datum with
  | some d1, some d2 => some (daysFromCivil d1 - daysFromCivil d2).natAbs
  | _, _ => none

/-- The fixed date awards (lines 146-156). -/
def datumAward (g : ℕ) : ℚ :=
  if g = 0 then 0.3
  else if g ≤ 1 then 0.25
  else if g ≤ 3 then 0.2
  else if g ≤ 7 then 0.1
  else if g ≤ 14 then 0.05
  else 0

/-- Date component of the score (lines 139-156). -/
def datumScoreOf (t : Transaktion) (b : Beleg) : ℚ :=
  match tageDiffOf t b with
  | some g => datumAward g
  | none => 0

/-- Normalized transaction-side merchant string (lines 159-161):
`normalize_haendler(transaktion.get('haendler') or
transaktion.get('beschreibung', ''))`. -/
def t_haendlerOf (t : Transaktion) : String :=
  normalize_haendler (some (pyOrStr t.haendler (t.beschreibung.getD "")))

/-- Normalized receipt-side merchant string (line 162). -/
def b_haendlerOf (b : Beleg) : String := normalize_haendler b.haendler

/-- Similarity-to-fraction ladder of lines 171-178. -/
def simFrac (w s : ℚ) : ℚ :=
  if s > 0.9 then w
  else if s > 0.7 then w * 0.75
  else if s > 0.5 then w * 0.5
  else if s > 0.3 then w * 0.25
  else 0

/-- Number of distinct words shared by the two normalized names
(`set(t) & set(b)`, lines 181-183). -/
def commonWordCount (th bh : String) : ℕ :=
  ((pyWords th).dedup.filter (fun w => (pyWords bh).contains w)).length

/-- Word-overlap bonus of lines 185-187. -/
def wordBonusOf (th bh : String) (w : ℚ) : ℚ :=
  if 1 ≤ commonWordCount th bh then
    pyMin (0.05 * (commonWordCount th bh : ℚ)) (w * 0.5)
  else 0

/-- `haendler_score` (lines 164-187); `sim` stands for
`SequenceMatcher(None, t, b).ratio()`. -/
def haendlerScoreOf (sim : String → String → ℚ) (t : Transaktion) (b : Beleg) : ℚ :=
  let th := t_haendlerOf t
  let bh := b_haendlerOf b
  if th ≠ "" ∧ bh ≠ "" then
    simFrac (haendlerWeightOf t b) (sim th bh) + wordBonusOf th bh (haendlerWeightOf t b)
  else 0

/-- `beleg.get('ocr_text', '')` (line 190), with `None` collapsing to
`""` (both falsy). -/
def ocrTextOf (b : Beleg) : String := b.ocr_text.getD ""

/-- `(transaktion.get('beschreibung') or '').lower()` (line 193). -/
def t_beschreibungOf (t : Transaktion) : String := pyLower (pyOrStr t.beschreibung "")

/-- Words of length at least three from the lowered description (line 199). -/
def ocrWordsOf (t : Transaktion) : List String :=
  (pyWords (t_beschreibungOf t)).filter (fun w => 3 ≤ w.length)

/-- `match_ratio` (lines 201-203), when the word list is nonempty. -/
def matchRatioOf (t : Transaktion) (b : Beleg) : Option ℚ :=
  let ws := ocrWordsOf t
  if ws.isEmpty then none
  else
    some (((ws.filter (fun w => pyContains (pyLower (ocrTextOf b)) w)).length : ℚ)
      / (ws.length : ℚ))

/-- Ratio-to-fraction ladder of lines 205-214. -/
def ratioFrac (w r : ℚ) : ℚ :=
  if r ≥ 0.8 then w
  else if r ≥ 0.6 then w * 0.75
  else if r ≥ 0.4 then w * 0.5
  else if r ≥ 0.2 then w * 0.25
  else 0

/-- Round to nearest integer, ties to even (the rounding of Python's
fixed-point float formatting at representable two-decimal values). -/
def roundHalfEven (q : ℚ) : ℤ :=
  let f : ℤ := q.num / (q.den : ℤ)
  if q - f < 1/2 then f
  else if q - f > 1/2 then f + 1
  else if f % 2 = 0 then f else f + 1

/-- Python `f"{x:.2f}"`: sign, integer part, dot, two-digit cents. -/
def formatBetrag2 (q : ℚ) : String :=
  let c := (roundHalfEven (|q| * 100)).toNat
  let whole := c / 100
  let cents := c % 100
  (if q < 0 then "-" else "") ++ toString whole ++ "."
    ++ (if cents < 10 then "0" else "") ++ toString cents

/-- Python `str.replace('.', ',')`. -/
def dotToComma (s : String) : String :=
  ⟨s.data.map (fun c => if c = '.' then ',' else c)⟩

/-- The amount-in-text confirmation test of lines 217-220: the truthy
transaction amount, formatted to two decimals with either a comma or a
dot separator, occurs literally in the raw OCR text. -/
def betragBonusApplies (t : Transaktion) (b : Beleg) : Bool :=
  decide (t_betragOf t ≠ 0)
    && (pyContains (ocrTextOf b) (dotToComma (formatBetrag2 (t_betragOf t)))
        || pyContains (ocrTextOf b) (formatBetrag2 (t_betragOf t)))

/-- `ocr_score` (lines 196-222): ratio ladder, then the amount bonus
`min(ocr_score + 0.1, 0.2)` when the amount appears in the text. -/
def ocrScoreOf (t : Transaktion) (b : Beleg) : ℚ :=
  let base :=
    match matchRatioOf t b with
    | some r => ratioFrac (haendlerWeightOf t b) r
    | none => 0
  if betragBonusApplies t b then pyMin (base + 0.1) 0.2 else base

/-- Merchant/text component (lines 189-227): the maximum of the
name-similarity and OCR estimators when the OCR path is evaluated,
otherwise the name-similarity score alone. -/
def merchantTextScoreOf (sim : String → String → ℚ) (t : Transaktion) (b : Beleg) : ℚ :=
  if ocrTextOf b ≠ "" ∧ t_haendlerOf t ≠ "" then
    pyMax (haendlerScoreOf sim t b) (ocrScoreOf t b)
  else haendlerScoreOf sim t b

/-- The `waehrung_mismatch` flag as it is produced by the control flow:
set on early rejection (line 100) and in the mismatch weight regime
(line 117), initialized false otherwise. -/
def waehrungMismatchFlag (t : Transaktion) (b : Beleg) : Bool :=
  if isRejected t b then true
  else if isForeignMatch t b then false
  else if isMismatch t b then true
  else false

/-- The `ocr_match` flag (lines 207, 210, 222). -/
def ocrMatchFlag (t : Transaktion) (b : Beleg) : Bool :=
  if ocrTextOf b ≠ "" ∧ t_haendlerOf t ≠ "" then
    (match matchRatioOf t b with
     | some r => decide (r ≥ 0.6)
     | none => false)
    || betragBonusApplies t b
  else false

/-- The full `details` dict of a non-rejected evaluation. -/
def detailsOf (sim : String → String → ℚ) (t : Transaktion) (b : Beleg) : MatchDetails where
  betrag_match :=
    decide (betragCond t b ∧ |t_betragOf t - b_betragOf b| < 0.1)
  betrag_diff :=
    if betragCond t b then some |t_betragOf t - b_betragOf b| else none
  datum_diff := tageDiffOf t b
  haendler_similarity :=
    if t_haendlerOf t ≠ "" ∧ b_haendlerOf b ≠ "" then sim (t_haendlerOf t) (b_haendlerOf b) else 0
  ocr_match := ocrMatchFlag t b
  waehrung_mismatch := waehrungMismatchFlag t b

/-- The `details` dict as initialized (lines 78-85), with the mismatch
flag set, as returned by the early rejection of lines 98-101. -/
def rejectedDetails : MatchDetails where
  betrag_match := false
  betrag_diff := none
  datum_diff := none
  haendler_similarity := 0
  ocr_match := false
  waehrung_mismatch := true

/-- `calculate_match_score` (matching.py lines 60-229). -/
def calculate_match_score (sim : String → String → ℚ) (t : Transaktion) (b : Beleg) :
    ℚ × MatchDetails :=
  if isRejected t b then (0, rejectedDetails)
  else
    (pyMin (betragScoreOf t b + datumScoreOf t b + merchantTextScoreOf sim t b) 1,
     detailsOf sim t b)

/-! ### `find_matches` (matching.py lines 232-256) -/

/-- One entry of the list returned by `find_matches`. -/
structure MatchEntry where
  beleg : Beleg
  confidence : ℚ
  match_details : MatchDetails
deriving DecidableEq

/-- `find_matches` (matching.py lines 232-256): every receipt scoring at
least `threshold`, sorted by confidence descending (Python `sorted` with
`reverse=True` is a stable descending sort, modelled by a stable merge
sort whose order keeps the earlier element on ties). -/
def find_matches (sim : String → String → ℚ) (t : Transaktion) (belege : List Beleg)
    (threshold : ℚ) : List MatchEntry :=
  (belege.filterMap (fun b =>
    let r := calculate_match_score sim t b
    if r.1 ≥ threshold then some ⟨b, r.1, r.2⟩ else none)).mergeSort
    (fun x y => decide (y.confidence ≤ x.confidence))

/-! ### The assignment loop of `auto_match_belege` (app.py lines 1790-1867)

Only the pure matching logic is embedded: the database reads that
produce the record lists, the file renaming, and the SQL updates are
side effects outside the scoring/assignment algorithm (the spec's
Assigner contract). A decision is the `(beleg, transaktion, confidence)`
triple appended to `matches_found`. -/

/-- One emitted assignment decision (a `matches_found` entry). The
confidence recorded is the raw best score, which is what the code
persists as `match_confidence`; the HTTP response additionally rounds
it to two decimals for display only. -/
structure Decision where
  beleg_id : ℕ
  transaktion_id : ℕ
  confidence : ℚ
deriving DecidableEq

/-- The inner `for t in transaktionen` loop of app.py lines 1794-1806:
fold over the remaining pool, skipping already-matched transaction ids,
keeping the best strictly-improving score (`if score > best_score`),
starting from `(None, 0)`. -/
def bestMatchFor (sim : String → String → ℚ) (b : Beleg) (matched : List ℕ) :
    List Transaktion → Option Transaktion × ℚ → Option Transaktion × ℚ
  | [], acc => acc
  | t :: ts, acc =>
    if t.id ∈ matched then bestMatchFor sim b matched ts acc
    else if (calculate_match_score sim t b).1 > acc.2 then
      bestMatchFor sim b matched ts (some t, (calculate_match_score sim t b).1)
    else bestMatchFor sim b matched ts acc

/-- Assigner state: (remaining transaction pool, matched transaction
ids, decisions so far). -/
def AssignState : Type := List Transaktion × List ℕ × List Decision

/-- One iteration of the outer `for beleg in belege` loop (app.py lines
1793-1867): commit when a best match exists and its score reaches the
threshold, then record the transaction id as matched and drop it from
the pool. -/
def autoStep (sim : String → String → ℚ) (threshold : ℚ) (st : AssignState) (b : Beleg) :
    AssignState :=
  match bestMatchFor sim b st.2.1 st.1 (none, 0) with
  | (some t, s) =>
    if s ≥ threshold then
      (st.1.filter (fun u => u.id ≠ t.id), t.id :: st.2.1,
       st.2.2 ++ [⟨b.id, t.id, s⟩])
    else st
  | (none, _) => st

/-- The assignment loop of `auto_match_belege` (app.py lines 1790-1867):
the list of emitted decisions, in emission order. -/
def auto_match_belege (sim : String → String → ℚ) (transaktionen : List Transaktion)
    (belege : List Beleg) (threshold : ℚ) : List Decision :=
  (belege.foldl (autoStep sim threshold) (transaktionen, [], [])).2.2

/-! ### Concrete records used by counterexamples, witnesses and examples -/

/-- A constant similarity oracle (used where the similarity value is
irrelevant to the fact being checked). -/
def simConst (q : ℚ) : String → String → ℚ := fun _ _ => q

/-- EUR transaction, amount 45, dated 2024-03-10. -/
def tEur : Transaktion := ⟨1, some "EUR", none, some 45, .str "2024-03-10", none, none⟩

/-- USD receipt, amount 45, dated 2024-03-10. -/
def bUsd : Beleg := ⟨2, some "USD", some 45, .str "2024-03-10", none, none⟩

/-- USD transaction, amount 45, dated 2024-03-10. -/
def tUsd : Transaktion := ⟨3, some "USD", none, some 45, .str "2024-03-10", none, none⟩

/-- GBP receipt, amount 45, dated 2024-03-10. -/
def bGbp : Beleg := ⟨4, some "GBP", some 45, .str "2024-03-10", none, none⟩

/-- Transaction whose amount field is present but `0`. -/
def tZero : Transaktion := ⟨5, none, none, some 0, .null, none, none⟩

/-- Receipt whose amount field is present but `0`. -/
def bZero : Beleg := ⟨6, none, some 0, .null, none, none⟩

/-- Transaction with amount 10 and no other signals. -/
def tTen : Transaktion := ⟨5, none, none, some 10, .null, none, none⟩

/-- Receipt with amount 10.05 and no other signals. -/
def bTenOh : Beleg := ⟨6, none, some 10.05, .null, none, none⟩

/-- Transaction dated 2024-03-10 with no other signals. -/
def tDated : Transaktion := ⟨8, none, none, none, .str "2024-03-10", none, none⟩

/-- Receipt dated 2024-03-09 with no other signals. -/
def bDated : Beleg := ⟨9, none, none, .str "2024-03-09", none, none⟩

/-- USD transaction whose description is fully contained in the
receipt's OCR text. -/
def tOcr : Transaktion := ⟨1, some "USD", none, none, .null, none, some "zalando store berlin"⟩

/-- USD receipt whose OCR text repeats the transaction description. -/
def bOcr : Beleg := ⟨7, some "USD", none, .null, none, some "zalando store berlin"⟩

/-! ### Basic sign and bound lemmas about the score components -/

theorem pyMin_eq (a b : ℚ) : pyMin a b = min a b := (min_def a b).symm

theorem pyMax_eq (a b : ℚ) : pyMax a b = max a b := (max_def a b).symm

/-- The fixed date weight equals the maximal date award (the `0.3`
granted at a day difference of zero, matching.py line 147). -/
theorem datumWeight_eq_max_award : datumWeight = datumAward 0 := rfl

theorem betragWeightOf_nonneg (t : Transaktion) (b : Beleg) : 0 ≤ betragWeightOf t b := by
  unfold betragWeightOf; split_ifs <;> norm_num

theorem haendlerWeightOf_nonneg (t : Transaktion) (b : Beleg) : 0 ≤ haendlerWeightOf t b := by
  unfold haendlerWeightOf; split_ifs <;> norm_num

theorem betragFrac_nonneg (d : ℚ) : 0 ≤ betragFrac d := by
  unfold betragFrac; split_ifs <;> norm_num

theorem betragFrac_le_one (d : ℚ) : betragFrac d ≤ 1 := by
  unfold betragFrac; split_ifs <;> norm_num

theorem betragScoreOf_nonneg (t : Transaktion) (b : Beleg) : 0 ≤ betragScoreOf t b := by
  unfold betragScoreOf
  split_ifs
  · exact mul_nonneg (betragWeightOf_nonneg t b) (betragFrac_nonneg _)
  · exact le_refl 0

theorem datumAward_nonneg (g : ℕ) : 0 ≤ datumAward g := by
  unfold datumAward; split_ifs <;> norm_num

theorem datumScoreOf_nonneg (t : Transaktion) (b : Beleg) : 0 ≤ datumScoreOf t b := by
  unfold datumScoreOf
  cases tageDiffOf t b with
  | none => exact le_refl 0
  | some g => exact datumAward_nonneg g

theorem simFrac_nonneg {w : ℚ} (hw : 0 ≤ w) (s : ℚ) : 0 ≤ simFrac w s := by
  unfold simFrac; split_ifs <;> positivity

theorem wordBonusOf_nonneg (th bh : String) {w : ℚ} (hw : 0 ≤ w) :
    0 ≤ wordBonusOf th bh w := by
  unfold wordBonusOf
  split_ifs
  · rw [pyMin_eq]
    exact le_min (by positivity) (by positivity)
  · exact le_refl 0

theorem haendlerScoreOf_nonneg (sim : String → String → ℚ) (t : Transaktion) (b : Beleg) :
    0 ≤ haendlerScoreOf sim t b := by
  unfold haendlerScoreOf
  dsimp only
  split_ifs
  · exact add_nonneg (simFrac_nonneg (haendlerWeightOf_nonneg t b) _)
      (wordBonusOf_nonneg _ _ (haendlerWeightOf_nonneg t b))
  · exact le_refl 0

theorem ratioFrac_nonneg {w : ℚ} (hw : 0 ≤ w) (r : ℚ) : 0 ≤ ratioFrac w r := by
  unfold ratioFrac; split_ifs <;> positivity

theorem ocrScoreOf_nonneg (t : Transaktion) (b : Beleg) : 0 ≤ ocrScoreOf t b := by
  unfold ocrScoreOf
  have hbase : (0:ℚ) ≤ (match matchRatioOf t b with
      | some r => ratioFrac (haendlerWeightOf t b) r
      | none => 0) := by
    cases matchRatioOf t b with
    | none => exact le_refl 0
    | some r => exact ratioFrac_nonneg (haendlerWeightOf_nonneg t b) r
  split_ifs
  · rw [pyMin_eq]
    exact le_min (by linarith) (by norm_num)
  · exact hbase

theorem merchantTextScoreOf_nonneg (sim : String → String → ℚ) (t : Transaktion) (b : Beleg) :
    0 ≤ merchantTextScoreOf sim t b := by
  unfold merchantTextScoreOf
  split_ifs
  · rw [pyMax_eq]
    exact le_max_of_le_left (haendlerScoreOf_nonneg sim t b)
  · exact haendlerScoreOf_nonneg sim t b

/-- C4 — For every well-typed transaction and receipt (including
fully-null optional receipt fields) and every similarity oracle, the
score returned by `calculate_match_score` satisfies
`0.0 ≤ score ≤ 1.0`. -/
theorem calculate_match_score_bounds (sim : String → String → ℚ)
    (t : Transaktion) (b : Beleg) :
    0 ≤ (calculate_match_score sim t b).1 ∧ (calculate_match_score sim t b).1 ≤ 1 := by
  unfold calculate_match_score
  split_ifs
  · exact ⟨le_refl 0, by norm_num⟩
  · simp only [pyMin_eq]
    constructor
    · exact le_min
        (add_nonneg (add_nonneg (betragScoreOf_nonneg t b) (datumScoreOf_nonneg t b))
          (merchantTextScoreOf_nonneg sim t b)) (by norm_num)
    · exact min_le_right _ _

/-! ### C1 — weight sums per currency regime -/

/-- C1 (counterexample) — in the currency-mismatch regime (EUR
transaction versus USD receipt) the selected weights are amount `0.0`
and merchant `0.5`, and together with the fixed date weight `0.3` they
sum to `0.8`, not `1.0` as the claim states. -/
theorem mismatch_regime_weights_sum_ne_one :
    betragWeightOf tEur bUsd = 0 ∧ haendlerWeightOf tEur bUsd = 0.5 ∧
    betragWeightOf tEur bUsd + datumWeight + haendlerWeightOf tEur bUsd ≠ 1 := by
  with_unfolding_all decide

/-- C1 (amended) — the amount, date and merchant weights selected by
the scorer sum to `1.0` in the same-EUR and same-foreign-currency
regimes, and to `0.8` in the currency-mismatch regime (where the amount
weight is dropped to `0.0` and the merchant weight raised to `0.5`). -/
theorem weights_sum_by_regime (t : Transaktion) (b : Beleg) :
    betragWeightOf t b + datumWeight + haendlerWeightOf t b
      = if isMismatch t b then 0.8 else 1 := by
  unfold betragWeightOf haendlerWeightOf datumWeight
  by_cases hf : isForeignMatch t b
  · have hm : ¬ isMismatch t b := fun hm => hm hf.2
    rw [if_pos hf, if_pos hf, if_neg hm]
    norm_num
  · by_cases hm : isMismatch t b
    · rw [if_neg hf, if_neg hf, if_pos hm, if_pos hm, if_pos hm]
      norm_num
    · rw [if_neg hf, if_neg hf, if_neg hm, if_neg hm, if_neg hm]
      norm_num

/-! ### C3 — dual distinct foreign currencies are rejected outright -/

/-- C3 — whenever the two currency codes (after defaulting absent codes
to EUR and upper-casing) are distinct and neither is EUR, the scorer
returns score `0.0` with the `waehrung_mismatch` flag set, for every
similarity oracle and regardless of all other fields. -/
theorem distinct_foreign_currencies_reject (sim : String → String → ℚ)
    (t : Transaktion) (b : Beleg)
    (h1 : t_waehrungOf t ≠ b_waehrungOf b)
    (h2 : t_waehrungOf t ≠ "EUR") (h3 : b_waehrungOf b ≠ "EUR") :
    (calculate_match_score sim t b).1 = 0 ∧
    (calculate_match_score sim t b).2.waehrung_mismatch = true := by
  have hr : isRejected t b := ⟨h1, h2, h3⟩
  unfold calculate_match_score
  rw [if_pos hr]
  exact ⟨rfl, rfl⟩

/-- C3 (witness) — concrete instance: USD transaction against GBP
receipt with identical amounts and dates still scores `0.0` with the
mismatch flag set. -/
theorem distinct_foreign_currencies_reject_witness :
    (calculate_match_score (simConst 1) tUsd bGbp).1 = 0 ∧
    (calculate_match_score (simConst 1) tUsd bGbp).2.waehrung_mismatch = true :=
  distinct_foreign_currencies_reject (simConst 1) tUsd bGbp
    (by with_unfolding_all decide) (by with_unfolding_all decide)
    (by with_unfolding_all decide)

/-! ### C5 — amount sub-score ladder -/

/-- C5 (counterexample) — an amount of `0` is present on both sides and
the amount weight is positive with `|d| < 0.01`, so the claim demands
100% of the amount weight (`0.5`), but Python truthiness treats the `0`
amounts as missing and the amount sub-score is `0`. -/
theorem zero_amount_present_no_betrag_score :
    (tZero.betrag.isSome ∧ bZero.betrag.isSome ∧ 0 < betragWeightOf tZero bZero
      ∧ |t_betragOf tZero - b_betragOf bZero| < 0.01) ∧
    betragScoreOf tZero bZero = 0 ∧
    betragScoreOf tZero bZero ≠ betragWeightOf tZero bZero := by
  with_unfolding_all decide

/-- C5 (amended) — whenever both amounts are present and nonzero
(Python-truthy) and the amount weight is positive, the amount sub-score
is the stated fraction of the amount weight as a function of
`d = |transactionAmount - receiptAmount|`: `d < 0.01` gives 100%,
`d < 0.10` gives 90%, `d < 1.00` gives 60%, `d < 5.00` gives 20%, and
otherwise 0%. -/
theorem betrag_subscore_piecewise (t : Transaktion) (b : Beleg)
    (ht : t_betragOf t ≠ 0) (hb : b_betragOf b ≠ 0)
    (hw : 0 < betragWeightOf t b) :
    (|t_betragOf t - b_betragOf b| < 0.01 →
      betragScoreOf t b = betragWeightOf t b) ∧
    (0.01 ≤ |t_betragOf t - b_betragOf b| → |t_betragOf t - b_betragOf b| < 0.1 →
      betragScoreOf t b = betragWeightOf t b * 0.9) ∧
    (0.1 ≤ |t_betragOf t - b_betragOf b| → |t_betragOf t - b_betragOf b| < 1 →
      betragScoreOf t b = betragWeightOf t b * 0.6) ∧
    (1 ≤ |t_betragOf t - b_betragOf b| → |t_betragOf t - b_betragOf b| < 5 →
      betragScoreOf t b = betragWeightOf t b * 0.2) ∧
    (5 ≤ |t_betragOf t - b_betragOf b| → betragScoreOf t b = 0) := by
  have hc : betragCond t b := ⟨ht, hb, hw⟩
  unfold betragScoreOf
  rw [if_pos hc]
  unfold betragFrac
  refine ⟨fun h1 => ?_, fun h1 h2 => ?_, fun h1 h2 => ?_, fun h1 h2 => ?_, fun h1 => ?_⟩
  · rw [if_pos h1, mul_one]
  · rw [if_neg (not_lt.mpr h1), if_pos h2]
  · rw [if_neg (not_lt.mpr h1), if_neg (by linarith), if_pos h2]
  · rw [if_neg (by linarith), if_neg (by linarith), if_neg (not_lt.mpr h1), if_pos h2]
  · rw [if_neg (by linarith), if_neg (by linarith), if_neg (by linarith),
      if_neg (not_lt.mpr h1), mul_zero]

/-- C5 (witness) — amounts 10 and 10.05 (difference 0.05, EUR regime):
the amount sub-score is 90% of the amount weight. -/
theorem betrag_subscore_piecewise_witness :
    betragScoreOf tTen bTenOh = betragWeightOf tTen bTenOh * 0.9 :=
  (betrag_subscore_piecewise tTen bTenOh
    (by with_unfolding_all decide) (by with_unfolding_all decide)
    (by with_unfolding_all decide)).2.1
    (by with_unfolding_all decide) (by with_unfolding_all decide)

/-! ### C6 — date awards are fixed in every regime -/

/-- C6 — whenever the pairing is not rejected outright and both dates
parse, the score decomposes as the amount component plus the fixed date
award plus the merchant/text component (clamped at 1), where the award
depends only on the absolute day difference `g` — the same `0.30 /
0.25 / 0.20 / 0.10 / 0.05 / 0` ladder in every currency regime. -/
theorem datum_award_decomposition (sim : String → String → ℚ)
    (t : Transaktion) (b : Beleg) (d1 d2 : Datum)
    (hnr : ¬ isRejected t b)
    (h1 : parse_datum t.datum = some d1) (h2 : parse_datum b.datum = some d2) :
    (calculate_match_score sim t b).1
      = pyMin (betragScoreOf t b
          + datumAward (daysFromCivil d1 - daysFromCivil d2).natAbs
          + merchantTextScoreOf sim t b) 1 ∧
    ∀ g : ℕ,
      (g = 0 → datumAward g = 0.30) ∧
      (g = 1 → datumAward g = 0.25) ∧
      (2 ≤ g → g ≤ 3 → datumAward g = 0.20) ∧
      (4 ≤ g → g ≤ 7 → datumAward g = 0.10) ∧
      (8 ≤ g → g ≤ 14 → datumAward g = 0.05) ∧
      (14 < g → datumAward g = 0) := by
  constructor
  · have hd : datumScoreOf t b = datumAward (daysFromCivil d1 - daysFromCivil d2).natAbs := by
      unfold datumScoreOf tageDiffOf
      rw [h1, h2]
    unfold calculate_match_score
    rw [if_neg hnr, ← hd]
  · intro g
    unfold datumAward
    refine ⟨fun h => ?_, fun h => ?_, fun ha hb => ?_, fun ha hb => ?_,
      fun ha hb => ?_, fun h => ?_⟩
    · rw [if_pos h]; norm_num
    · subst h; norm_num
    · rw [if_neg (by omega), if_neg (by omega), if_pos hb]; norm_num
    · rw [if_neg (by omega), if_neg (by omega), if_neg (by omega), if_pos hb]; norm_num
    · rw [if_neg (by omega), if_neg (by omega), if_neg (by omega), if_neg (by omega),
        if_pos hb]
    · rw [if_neg (by omega), if_neg (by omega), if_neg (by omega), if_neg (by omega),
        if_neg (by omega)]

/-- C6 (witness) — dates 2024-03-10 and 2024-03-09 (day difference 1):
the decomposition holds and the award at `g = 1` is `0.25`. -/
theorem datum_award_decomposition_witness :
    (calculate_match_score (simConst 0) tDated bDated).1
      = pyMin (betragScoreOf tDated bDated
          + datumAward (daysFromCivil ⟨2024, 3, 10⟩ - daysFromCivil ⟨2024, 3, 9⟩).natAbs
          + merchantTextScoreOf (simConst 0) tDated bDated) 1 ∧
    ∀ g : ℕ,
      (g = 0 → datumAward g = 0.30) ∧
      (g = 1 → datumAward g = 0.25) ∧
      (2 ≤ g → g ≤ 3 → datumAward g = 0.20) ∧
      (4 ≤ g → g ≤ 7 → datumAward g = 0.10) ∧
      (8 ≤ g → g ≤ 14 → datumAward g = 0.05) ∧
      (14 < g → datumAward g = 0) :=
  datum_award_decomposition (simConst 0) tDated bDated ⟨2024, 3, 10⟩ ⟨2024, 3, 9⟩
    (by with_unfolding_all decide) (by with_unfolding_all decide)
    (by with_unfolding_all decide)

/-! ### C7 — the raw-text estimator cap -/

theorem ratioFrac_le_weight {w : ℚ} (hw : 0 ≤ w) (r : ℚ) : ratioFrac w r ≤ w := by
  unfold ratioFrac; split_ifs <;> linarith

/-- C7 (counterexample) — the raw-text containment estimator is
evaluated (non-empty OCR text and non-empty normalized transaction
description), every description word occurs in the OCR text, the
currency regime is same-foreign (merchant weight `0.5`), and the
amount-in-text bonus does not fire: the estimator contributes `0.5` to
the score, exceeding the claimed absolute cap of `0.2`. -/
theorem ocr_estimator_exceeds_cap :
    (ocrTextOf bOcr ≠ "" ∧ t_haendlerOf tOcr ≠ "") ∧
    ocrScoreOf tOcr bOcr = 0.5 ∧
    merchantTextScoreOf (simConst 0) tOcr bOcr = 0.5 ∧
    (calculate_match_score (simConst 0) tOcr bOcr).1 = 0.5 ∧
    ¬ ocrScoreOf tOcr bOcr ≤ 0.2 := by
  with_unfolding_all decide

/-- C7 (amended) — the `0.2` absolute cap on the raw-text estimator is
applied only when the amount-in-text bonus fires (the code caps
`min(ocr_score + 0.1, 0.2)` on that path); when the bonus does not
fire, the estimator is bounded by the merchant weight in force, which
is `0.5` in the foreign-currency and mismatch regimes. -/
theorem ocr_estimator_cap_cases (t : Transaktion) (b : Beleg) :
    ocrScoreOf t b
      ≤ (if betragBonusApplies t b then (0.2 : ℚ) else haendlerWeightOf t b) := by
  unfold ocrScoreOf
  dsimp only
  split_ifs with h
  · rw [pyMin_eq]
    exact min_le_right _ _
  · rcases matchRatioOf t b with _ | r
    · exact haendlerWeightOf_nonneg t b
    · exact ratioFrac_le_weight (haendlerWeightOf_nonneg t b) r

/-! ### C9 — an all-null receipt scores zero against every transaction -/

/-- C9 — a receipt whose optional fields are all null scores exactly
`0.0` against every transaction and every similarity oracle; the
embedding is a total function, mirroring that the source degrades
missing and unparseable fields to zero sub-scores instead of raising. -/
theorem null_receipt_scores_zero (sim : String → String → ℚ) (t : Transaktion)
    (b : Beleg) (hw : b.waehrung = none) (hbe : b.betrag = none)
    (hd : b.datum = .null) (hh : b.haendler = none) (ho : b.ocr_text = none) :
    (calculate_match_score sim t b).1 = 0 := by
  obtain ⟨i, w, be, da, ha, oc⟩ := b
  dsimp only at hw hbe hd hh ho
  subst hw hbe hd hh ho
  have hnr : ¬ isRejected t ⟨i, none, none, .null, none, none⟩ :=
    fun h => h.2.2 rfl
  have h1 : betragScoreOf t ⟨i, none, none, .null, none, none⟩ = 0 := by
    unfold betragScoreOf
    rw [if_neg]
    exact fun h => h.2.1 rfl
  have h2 : datumScoreOf t ⟨i, none, none, .null, none, none⟩ = 0 := by
    unfold datumScoreOf tageDiffOf
    rcases parse_datum t.datum with _ | d <;> rfl
  have h3 : merchantTextScoreOf sim t ⟨i, none, none, .null, none, none⟩ = 0 := by
    unfold merchantTextScoreOf
    rw [if_neg (fun h => h.1 rfl)]
    unfold haendlerScoreOf
    dsimp only
    rw [if_neg (fun h => h.2 rfl)]
  unfold calculate_match_score
  rw [if_neg hnr, h1, h2, h3]
  norm_num [pyMin]

/-- C9 (witness) — the all-null receipt with id 42 scores `0.0` against
the concrete EUR transaction. -/
theorem null_receipt_scores_zero_witness :
    (calculate_match_score (simConst 1) tEur ⟨42, none, none, .null, none, none⟩).1 = 0 :=
  null_receipt_scores_zero (simConst 1) tEur ⟨42, none, none, .null, none, none⟩
    rfl rfl rfl rfl rfl

/-! ### C10 — the mismatch flag is exactly currency inequality -/

/-- C10 — the `waehrung_mismatch` flag of the returned explanation is
true exactly when the two currency codes (after defaulting absent codes
to EUR and upper-casing) differ; and a flagged pairing can still score
strictly above zero (EUR transaction versus USD receipt on the same
day scores `0.3`), so the flag does not imply rejection. -/
theorem waehrung_mismatch_flag_iff :
    (∀ (sim : String → String → ℚ) (t : Transaktion) (b : Beleg),
      ((calculate_match_score sim t b).2.waehrung_mismatch = true
        ↔ t_waehrungOf t ≠ b_waehrungOf b)) ∧
    (∃ (sim : String → String → ℚ) (t : Transaktion) (b : Beleg),
      (calculate_match_score sim t b).2.waehrung_mismatch = true ∧
      0 < (calculate_match_score sim t b).1) := by
  constructor
  · intro sim t b
    unfold calculate_match_score
    by_cases hr : isRejected t b
    · rw [if_pos hr]
      exact iff_of_true rfl hr.1
    · rw [if_neg hr]
      show waehrungMismatchFlag t b = true ↔ _
      unfold waehrungMismatchFlag
      rw [if_neg hr]
      by_cases hf : isForeignMatch t b
      · rw [if_pos hf]
        exact iff_of_false Bool.false_ne_true (fun hne => hne hf.2)
      · rw [if_neg hf]
        by_cases hm : isMismatch t b
        · rw [if_pos hm]
          exact iff_of_true rfl hm
        · rw [if_neg hm]
          exact iff_of_false Bool.false_ne_true hm
  · exact ⟨simConst 0, tEur, bUsd, by with_unfolding_all decide,
      by with_unfolding_all decide⟩

/-! ### Properties of the greedy assignment loop -/

/-- Accumulator invariant of the inner best-match loop: the running
best score stays nonnegative, and whenever a best transaction is held
it comes from the allowed list `L`, is unclaimed, and carries its own
strictly positive score. -/
theorem bestMatchFor_invariant (sim : String → String → ℚ) (b : Beleg)
    (matched : List ℕ) (L : List Transaktion) :
    ∀ (ts : List Transaktion) (acc : Option Transaktion × ℚ),
      (∀ u ∈ ts, u ∈ L) →
      0 ≤ acc.2 →
      (∀ u, acc.1 = some u → u ∈ L ∧ u.id ∉ matched ∧
        acc.2 = (calculate_match_score sim u b).1 ∧ 0 < acc.2) →
      0 ≤ (bestMatchFor sim b matched ts acc).2 ∧
      ∀ u, (bestMatchFor sim b matched ts acc).1 = some u →
        u ∈ L ∧ u.id ∉ matched ∧
        (bestMatchFor sim b matched ts acc).2 = (calculate_match_score sim u b).1 ∧
        0 < (bestMatchFor sim b matched ts acc).2
  | [], acc, _, h0, hacc => ⟨h0, hacc⟩
  | t :: ts, acc, hts, h0, hacc => by
    unfold bestMatchFor
    split_ifs with hmem hgt
    · exact bestMatchFor_invariant sim b matched L ts acc
        (fun u hu => hts u (List.mem_cons_of_mem t hu)) h0 hacc
    · refine bestMatchFor_invariant sim b matched L ts _
        (fun u hu => hts u (List.mem_cons_of_mem t hu)) (le_of_lt (lt_of_le_of_lt h0 hgt)) ?_
      intro u hu
      rw [Option.some.injEq] at hu
      subst hu
      exact ⟨hts t (List.mem_cons_self t ts), hmem, rfl, lt_of_le_of_lt h0 hgt⟩
    · exact bestMatchFor_invariant sim b matched L ts acc
        (fun u hu => hts u (List.mem_cons_of_mem t hu)) h0 hacc

/-- When the inner loop returns a best transaction, that transaction
comes from the pool, is unclaimed, and its score is the returned
strictly positive best score. -/
theorem bestMatchFor_some (sim : String → String → ℚ) (b : Beleg)
    (matched : List ℕ) (pool : List Transaktion) (t : Transaktion) (s : ℚ)
    (h : bestMatchFor sim b matched pool (none, 0) = (some t, s)) :
    t ∈ pool ∧ t.id ∉ matched ∧ s = (calculate_match_score sim t b).1 ∧ 0 < s := by
  have hinv := bestMatchFor_invariant sim b matched pool pool (none, 0)
    (fun u hu => hu) (le_refl 0) (fun u hu => by exact absurd hu (by simp))
  have h1 : (bestMatchFor sim b matched pool (none, 0)).1 = some t := by rw [h]
  have h2 : (bestMatchFor sim b matched pool (none, 0)).2 = s := by rw [h]
  obtain ⟨hu1, hu2, hu3, hu4⟩ := hinv.2 t h1
  exact ⟨hu1, hu2, h2 ▸ hu3, h2 ▸ hu4⟩

/-- If no remaining transaction strictly beats the held accumulator,
the inner loop keeps the accumulator: ties never displace the
first-encountered best transaction. -/
theorem bestMatchFor_keeps_acc (sim : String → String → ℚ) (b : Beleg)
    (matched : List ℕ) :
    ∀ (ts : List Transaktion) (acc : Option Transaktion × ℚ),
      (∀ u ∈ ts, (calculate_match_score sim u b).1 ≤ acc.2) →
      bestMatchFor sim b matched ts acc = acc
  | [], acc, _ => rfl
  | t :: ts, acc, hle => by
    unfold bestMatchFor
    split_ifs with hmem hgt
    · exact bestMatchFor_keeps_acc sim b matched ts acc
        (fun u hu => hle u (List.mem_cons_of_mem t hu))
    · exact absurd hgt (not_lt.mpr (hle t (List.mem_cons_self t ts)))
    · exact bestMatchFor_keeps_acc sim b matched ts acc
        (fun u hu => hle u (List.mem_cons_of_mem t hu))

/-- The first transaction of the pool wins when it is unclaimed, scores
strictly above zero, and no later transaction scores strictly higher. -/
theorem bestMatchFor_first_of_ties (sim : String → String → ℚ) (b : Beleg)
    (matched : List ℕ) (t1 : Transaktion) (rest : List Transaktion)
    (hm : t1.id ∉ matched) (hpos : 0 < (calculate_match_score sim t1 b).1)
    (hle : ∀ u ∈ rest, (calculate_match_score sim u b).1 ≤ (calculate_match_score sim t1 b).1) :
    bestMatchFor sim b matched (t1 :: rest) (none, 0)
      = (some t1, (calculate_match_score sim t1 b).1) := by
  unfold bestMatchFor
  rw [if_neg hm, if_pos hpos]
  exact bestMatchFor_keeps_acc sim b matched rest _ hle

/-- One `autoStep` preserves the transaction-id invariant: the emitted
decisions carry pairwise distinct transaction ids, and every emitted
transaction id is recorded in the matched set. -/
theorem autoStep_tids (sim : String → String → ℚ) (thr : ℚ) (st : AssignState) (b : Beleg)
    (h1 : (st.2.2.map (fun d => d.transaktion_id)).Nodup)
    (h2 : ∀ d ∈ st.2.2, d.transaktion_id ∈ st.2.1) :
    ((autoStep sim thr st b).2.2.map (fun d => d.transaktion_id)).Nodup ∧
    ∀ d ∈ (autoStep sim thr st b).2.2,
      d.transaktion_id ∈ (autoStep sim thr st b).2.1 := by
  unfold autoStep
  split
  case h_1 t s heq =>
    split_ifs with hth
    · obtain ⟨_, htid, _, _⟩ := bestMatchFor_some sim b st.2.1 st.1 t s heq
      constructor
      · rw [List.map_append]
        refine List.Nodup.append h1 (List.nodup_singleton _) ?_
        intro x hx hy
        simp only [List.map_cons, List.map_nil, List.mem_singleton] at hy
        subst hy
        obtain ⟨d, hd, hdx⟩ := List.mem_map.mp hx
        exact htid (hdx ▸ h2 d hd)
      · intro d hd
        rcases List.mem_append.mp hd with hd | hd
        · exact List.mem_cons_of_mem _ (h2 d hd)
        · simp only [List.mem_singleton] at hd
          subst hd
          exact List.mem_cons_self _ _
    · exact ⟨h1, h2⟩
  case h_2 s heq =>
    exact ⟨h1, h2⟩

/-- Folding `autoStep` over any receipt list preserves the
transaction-id invariant. -/
theorem autoFold_tids (sim : String → String → ℚ) (thr : ℚ) :
    ∀ (bs : List Beleg) (st : AssignState),
      (st.2.2.map (fun d => d.transaktion_id)).Nodup →
      (∀ d ∈ st.2.2, d.transaktion_id ∈ st.2.1) →
      (((bs.foldl (autoStep sim thr) st).2.2.map (fun d => d.transaktion_id)).Nodup ∧
       ∀ d ∈ (bs.foldl (autoStep sim thr) st).2.2,
         d.transaktion_id ∈ (bs.foldl (autoStep sim thr) st).2.1)
  | [], st, h1, h2 => ⟨h1, h2⟩
  | b :: bs, st, h1, h2 => by
    rw [List.foldl_cons]
    obtain ⟨g1, g2⟩ := autoStep_tids sim thr st b h1 h2
    exact autoFold_tids sim thr bs (autoStep sim thr st b) g1 g2

/-- Folding `autoStep` preserves the receipt-id invariant: with
pairwise distinct input receipt ids, the emitted decisions carry
pairwise distinct receipt ids. -/
theorem autoFold_bids (sim : String → String → ℚ) (thr : ℚ) :
    ∀ (bs : List Beleg) (st : AssignState),
      (bs.map (fun b => b.id)).Nodup →
      (st.2.2.map (fun d => d.beleg_id)).Nodup →
      (∀ d ∈ st.2.2, d.beleg_id ∉ bs.map (fun b => b.id)) →
      ((bs.foldl (autoStep sim thr) st).2.2.map (fun d => d.beleg_id)).Nodup
  | [], st, _, h1, _ => h1
  | b :: bs, st, hbs, h1, h2 => by
    rw [List.foldl_cons]
    rw [List.map_cons, List.nodup_cons] at hbs
    have hstep : ((autoStep sim thr st b).2.2.map (fun d => d.beleg_id)).Nodup ∧
        ∀ d ∈ (autoStep sim thr st b).2.2, d.beleg_id ∉ bs.map (fun u => u.id) := by
      unfold autoStep
      split
      case h_1 t s heq =>
        split_ifs with hth
        · constructor
          · rw [List.map_append]
            refine List.Nodup.append h1 (List.nodup_singleton _) ?_
            intro x hx hy
            simp only [List.map_cons, List.map_nil, List.mem_singleton] at hy
            subst hy
            obtain ⟨d, hd, hdx⟩ := List.mem_map.mp hx
            exact (h2 d hd) (by rw [List.map_cons]; exact hdx ▸ List.mem_cons_self _ _)
          · intro d hd
            rcases List.mem_append.mp hd with hd | hd
            · intro hmem
              exact (h2 d hd) (by rw [List.map_cons]; exact List.mem_cons_of_mem _ hmem)
            · simp only [List.mem_singleton] at hd
              subst hd
              exact hbs.1
        · refine ⟨h1, fun d hd hmem => (h2 d hd) ?_⟩
          rw [List.map_cons]
          exact List.mem_cons_of_mem _ hmem
      case h_2 s heq =>
        refine ⟨h1, fun d hd hmem => (h2 d hd) ?_⟩
        rw [List.map_cons]
        exact List.mem_cons_of_mem _ hmem
    exact autoFold_bids sim thr bs (autoStep sim thr st b) hbs.2 hstep.1 hstep.2

/-- `autoStep` with an empty transaction pool changes nothing. -/
theorem autoStep_empty_pool (sim : String → String → ℚ) (thr : ℚ)
    (matched : List ℕ) (decs : List Decision) (b : Beleg) :
    autoStep sim thr ([], matched, decs) b = ([], matched, decs) := rfl

/-- `autoStep` commits when the best match reaches the threshold. -/
theorem autoStep_commit (sim : String → String → ℚ) (thr : ℚ) (st : AssignState)
    (b : Beleg) (t : Transaktion) (s : ℚ)
    (heq : bestMatchFor sim b st.2.1 st.1 (none, 0) = (some t, s)) (hth : s ≥ thr) :
    autoStep sim thr st b
      = (st.1.filter (fun u => u.id ≠ t.id), t.id :: st.2.1,
         st.2.2 ++ [⟨b.id, t.id, s⟩]) := by
  unfold autoStep
  rw [heq]
  dsimp only
  rw [if_pos hth]

/-- `autoStep` leaves the state unchanged when the best score misses
the threshold. -/
theorem autoStep_nocommit (sim : String → String → ℚ) (thr : ℚ) (st : AssignState)
    (b : Beleg) (t : Transaktion) (s : ℚ)
    (heq : bestMatchFor sim b st.2.1 st.1 (none, 0) = (some t, s)) (hth : ¬ s ≥ thr) :
    autoStep sim thr st b = st := by
  unfold autoStep
  rw [heq]
  dsimp only
  rw [if_neg hth]

/-- `autoStep` leaves the state unchanged when no best match is found. -/
theorem autoStep_none (sim : String → String → ℚ) (thr : ℚ) (st : AssignState)
    (b : Beleg) (s : ℚ)
    (heq : bestMatchFor sim b st.2.1 st.1 (none, 0) = (none, s)) :
    autoStep sim thr st b = st := by
  unfold autoStep
  rw [heq]

/-- A single transaction against a single receipt: a decision is
emitted exactly when the score is strictly positive (so the transaction
becomes the best match at all) and reaches the threshold inclusively. -/
theorem auto_match_single (sim : String → String → ℚ) (t : Transaktion) (b : Beleg)
    (thr : ℚ) :
    auto_match_belege sim [t] [b] thr
      = if 0 < (calculate_match_score sim t b).1 ∧ (calculate_match_score sim t b).1 ≥ thr
        then [⟨b.id, t.id, (calculate_match_score sim t b).1⟩] else [] := by
  unfold auto_match_belege
  rw [List.foldl_cons, List.foldl_nil]
  by_cases hpos : 0 < (calculate_match_score sim t b).1
  · have hbm : bestMatchFor sim b ([t], ([] : List ℕ), ([] : List Decision)).2.1
        ([t], ([] : List ℕ), ([] : List Decision)).1 (none, 0)
        = (some t, (calculate_match_score sim t b).1) :=
      bestMatchFor_first_of_ties sim b [] t [] (List.not_mem_nil t.id) hpos
        (fun u hu => absurd hu (List.not_mem_nil u))
    by_cases hth : (calculate_match_score sim t b).1 ≥ thr
    · rw [autoStep_commit sim thr ([t], [], []) b t _ hbm hth, if_pos ⟨hpos, hth⟩]
      rfl
    · rw [autoStep_nocommit sim thr ([t], [], []) b t _ hbm hth,
        if_neg (fun hc => hth hc.2)]
  · have hbm : bestMatchFor sim b ([t], ([] : List ℕ), ([] : List Decision)).2.1
        ([t], ([] : List ℕ), ([] : List Decision)).1 (none, 0) = (none, 0) :=
      bestMatchFor_keeps_acc sim b [] [t] (none, 0)
        (fun u hu => by
          rw [List.mem_singleton] at hu
          subst hu
          exact not_lt.mp hpos)
    rw [autoStep_none sim thr ([t], [], []) b 0 hbm, if_neg (fun hc => hpos hc.1)]

/-- Two receipts competing for one transaction: the first receipt in
input order claims it (when its score is positive and reaches the
threshold), and the second receipt finds the pool empty, so exactly one
decision is emitted, for the first receipt. -/
theorem auto_match_two_receipts (sim : String → String → ℚ) (t : Transaktion)
    (b1 b2 : Beleg) (thr : ℚ)
    (hpos : 0 < (calculate_match_score sim t b1).1)
    (hth : (calculate_match_score sim t b1).1 ≥ thr) :
    auto_match_belege sim [t] [b1, b2] thr
      = [⟨b1.id, t.id, (calculate_match_score sim t b1).1⟩] := by
  unfold auto_match_belege
  rw [List.foldl_cons, List.foldl_cons, List.foldl_nil]
  have hbm : bestMatchFor sim b1 ([t], ([] : List ℕ), ([] : List Decision)).2.1
      ([t], ([] : List ℕ), ([] : List Decision)).1 (none, 0)
      = (some t, (calculate_match_score sim t b1).1) :=
    bestMatchFor_first_of_ties sim b1 [] t [] (List.not_mem_nil t.id) hpos
      (fun u hu => absurd hu (List.not_mem_nil u))
  rw [autoStep_commit sim thr ([t], [], []) b1 t _ hbm hth]
  have hfil : ([t], ([] : List ℕ), ([] : List Decision)).1.filter
      (fun u => u.id ≠ t.id) = [] := by
    simp [List.filter]
  rw [hfil]
  rw [autoStep_empty_pool]
  rfl

/-- Membership in `find_matches` is exactly the inclusive threshold
test: a receipt appears in the returned (sorted) list iff it is among
the inputs and its score is `≥ threshold`. -/
theorem find_matches_mem_iff (sim : String → String → ℚ) (t : Transaktion)
    (bs : List Beleg) (thr : ℚ) (b : Beleg) :
    (∃ e ∈ find_matches sim t bs thr, e.beleg = b)
      ↔ (b ∈ bs ∧ (calculate_match_score sim t b).1 ≥ thr) := by
  unfold find_matches
  constructor
  · rintro ⟨e, he, rfl⟩
    have he2 := ((List.mergeSort_perm _ _).mem_iff).mp he
    obtain ⟨a, ha, hfa⟩ := List.mem_filterMap.mp he2
    dsimp only at hfa
    split_ifs at hfa with hge
    rw [Option.some.injEq] at hfa
    subst hfa
    exact ⟨ha, hge⟩
  · rintro ⟨hmem, hge⟩
    refine ⟨⟨b, (calculate_match_score sim t b).1, (calculate_match_score sim t b).2⟩,
      ?_, rfl⟩
    apply ((List.mergeSort_perm _ _).mem_iff).mpr
    apply List.mem_filterMap.mpr
    exact ⟨b, hmem, by dsimp only; rw [if_pos hge]⟩

/-! ### C8 — inclusive threshold boundary -/

/-- C8 (counterexample) — at `threshold = 0` a candidate scoring
exactly the threshold (score `0`) is included by `find_matches` but the
greedy auto-match emits no decision for it, because a transaction only
becomes the best match when its score strictly exceeds the running best
of `0`; so the claim fails as stated for the auto-match commit. -/
theorem threshold_zero_included_only_in_find_matches :
    (calculate_match_score (simConst 0) tZero bZero).1 = 0 ∧
    (∃ e ∈ find_matches (simConst 0) tZero [bZero] 0, e.beleg = bZero) ∧
    auto_match_belege (simConst 0) [tZero] [bZero] 0 = [] := by
  refine ⟨by with_unfolding_all decide, ?_, by with_unfolding_all decide⟩
  exact (find_matches_mem_iff (simConst 0) tZero [bZero] 0 bZero).mpr
    ⟨List.mem_singleton_self _, by with_unfolding_all decide⟩

/-- C8 (amended) — the threshold comparison is inclusive (`≥`) in both
places: `find_matches` returns exactly the receipts scoring `≥
threshold`, and the greedy auto-match commits a candidate iff its score
is `≥ threshold` — provided the score is also strictly positive, since
only a strictly-improving score can become the best match at all. -/
theorem threshold_boundary_inclusive :
    (∀ (sim : String → String → ℚ) (t : Transaktion) (bs : List Beleg) (thr : ℚ)
      (b : Beleg),
      (∃ e ∈ find_matches sim t bs thr, e.beleg = b)
        ↔ (b ∈ bs ∧ (calculate_match_score sim t b).1 ≥ thr)) ∧
    (∀ (sim : String → String → ℚ) (t : Transaktion) (b : Beleg) (thr : ℚ),
      0 < (calculate_match_score sim t b).1 →
      auto_match_belege sim [t] [b] thr
        = if (calculate_match_score sim t b).1 ≥ thr
          then [⟨b.id, t.id, (calculate_match_score sim t b).1⟩] else []) := by
  constructor
  · exact find_matches_mem_iff
  · intro sim t b thr hpos
    rw [auto_match_single sim t b thr]
    by_cases hth : (calculate_match_score sim t b).1 ≥ thr
    · rw [if_pos ⟨hpos, hth⟩, if_pos hth]
    · rw [if_neg (fun hc => hth hc.2), if_neg hth]

/-- C8 (witness) — transaction with amount 10 against receipt with
amount 10.05 (score `0.45`) at threshold `0.45`: the score equals the
threshold and the auto-match decision is emitted. -/
theorem threshold_boundary_inclusive_witness :
    auto_match_belege (simConst 0) [tTen] [bTenOh] 0.45
      = if (calculate_match_score (simConst 0) tTen bTenOh).1 ≥ 0.45
        then [⟨bTenOh.id, tTen.id, (calculate_match_score (simConst 0) tTen bTenOh).1⟩]
        else [] :=
  threshold_boundary_inclusive.2 (simConst 0) tTen bTenOh 0.45
    (by with_unfolding_all decide)

/-! ### C2 — uniqueness and order of greedy assignments -/

/-- C2 — the greedy auto-match (i) emits pairwise distinct transaction
ids unconditionally, (ii) emits pairwise distinct receipt ids whenever
the input receipt ids are pairwise distinct, (iii) with a single
transaction and two competing receipts, the receipt earlier in input
order wins and exactly one decision is emitted, and (iv) among
equal-scoring transactions for one receipt the first-encountered in
input order is chosen as best match. -/
theorem auto_match_assignment_properties :
    (∀ (sim : String → String → ℚ) (ts : List Transaktion) (bs : List Beleg) (thr : ℚ),
      ((auto_match_belege sim ts bs thr).map (fun d => d.transaktion_id)).Nodup) ∧
    (∀ (sim : String → String → ℚ) (ts : List Transaktion) (bs : List Beleg) (thr : ℚ),
      (bs.map (fun b => b.id)).Nodup →
      ((auto_match_belege sim ts bs thr).map (fun d => d.beleg_id)).Nodup) ∧
    (∀ (sim : String → String → ℚ) (t : Transaktion) (b1 b2 : Beleg) (thr : ℚ),
      0 < (calculate_match_score sim t b1).1 →
      (calculate_match_score sim t b1).1 ≥ thr →
      auto_match_belege sim [t] [b1, b2] thr
        = [⟨b1.id, t.id, (calculate_match_score sim t b1).1⟩]) ∧
    (∀ (sim : String → String → ℚ) (b : Beleg) (matched : List ℕ)
      (t1 : Transaktion) (rest : List Transaktion),
      t1.id ∉ matched →
      0 < (calculate_match_score sim t1 b).1 →
      (∀ u ∈ rest,
        (calculate_match_score sim u b).1 ≤ (calculate_match_score sim t1 b).1) →
      bestMatchFor sim b matched (t1 :: rest) (none, 0)
        = (some t1, (calculate_match_score sim t1 b).1)) := by
  refine ⟨?_, ?_, auto_match_two_receipts, bestMatchFor_first_of_ties⟩
  · intro sim ts bs thr
    exact (autoFold_tids sim thr bs (ts, [], [])
      List.nodup_nil (fun d hd => absurd hd (List.not_mem_nil d))).1
  · intro sim ts bs thr hbs
    exact autoFold_bids sim thr bs (ts, [], []) hbs
      List.nodup_nil (fun d hd => absurd hd (List.not_mem_nil d))

/-- C2 (witness) — concrete run: one transaction (amount 10), receipts
with amounts 10.05 and 45 at threshold 0.4; the receipt ids are
distinct, exactly one decision for the first receipt is emitted, and
with two equal-scoring pool entries the first is chosen. -/
theorem auto_match_assignment_properties_witness :
    ((auto_match_belege (simConst 0) [tTen] [bTenOh, bGbp] 0.4).map
      (fun d => d.beleg_id)).Nodup ∧
    auto_match_belege (simConst 0) [tTen] [bTenOh, bGbp] 0.4
      = [⟨bTenOh.id, tTen.id, (calculate_match_score (simConst 0) tTen bTenOh).1⟩] ∧
    bestMatchFor (simConst 0) bTenOh [] [tTen, tZero] (none, 0)
      = (some tTen, (calculate_match_score (simConst 0) tTen bTenOh).1) :=
  ⟨auto_match_assignment_properties.2.1 (simConst 0) [tTen] [bTenOh, bGbp] 0.4
    (by with_unfolding_all decide),
   auto_match_assignment_properties.2.2.1 (simConst 0) tTen bTenOh bGbp 0.4
    (by with_unfolding_all decide) (by with_unfolding_all decide),
   auto_match_assignment_properties.2.2.2 (simConst 0) bTenOh [] tTen [tZero]
    (by with_unfolding_all decide) (by with_unfolding_all decide)
    (by with_unfolding_all decide)⟩
